import Mathlib

/-!
Verification of the tag-reading pipeline of `mkdocs_table_reader_plugin/plugin.py`
(`on_page_markdown`).  The development embeds, over `List Char` and `String`:

* the tag regular expression `( *)\x7b\x7b\s+NAME\((.+)\)\s+\x7d\x7d` compiled with
  `re.IGNORECASE` (lines 78-80), together with Python's leftmost-match,
  greedy-with-backtracking semantics for `re.findall` (line 81) and
  `re.sub(..., count=1)` (line 128), including the replacement-template
  expansion CPython applies to the replacement string;
* the argument/path resolution loop over the search directories
  (lines 89-110), including the in-place mutation of `pd_args` / `pd_kwargs`
  and the `for`/`else` raise of `FileNotFoundError`;
* the indentation fix-up (lines 114-124): `int(len(leading_spaces)/4)*"    "`
  and per-line `textwrap.indent` with its default predicate;
* the per-occurrence and per-tag orchestration (lines 73-131), with the
  missing collaborators (`safe_eval.parse_argkwarg`, `readers.READERS`,
  `utils.cd`) taken as parameters or modelled from the spec.

Python-specific conventions reproduced here: `\s` is modelled on the ASCII
range as the characters space, tab, newline, carriage return, vertical tab
and form feed; `.` matches anything except a newline; `re.IGNORECASE` is
modelled by `Char.toLower` comparison (the tag names are ASCII identifiers).
-/

namespace TableReader

/-- Decidable equality on `Except`, for evaluating the embedding at concrete
inputs. -/
instance {ε α : Type} [DecidableEq ε] [DecidableEq α] : DecidableEq (Except ε α) := fun x y =>
  match x, y with
  | .ok a, .ok b => if h : a = b then .isTrue (by rw [h]) else .isFalse (by simp [h])
  | .error a, .error b => if h : a = b then .isTrue (by rw [h]) else .isFalse (by simp [h])
  | .ok _, .error _ => .isFalse (by simp)
  | .error _, .ok _ => .isFalse (by simp)

/-- Python's `\s` character class, restricted to its ASCII members. -/
def pyWs (c : Char) : Bool :=
  c = ' ' || c = '\t' || c = '\n' || c = '\r' || c = '\x0b' || c = '\x0c'

/-- The exceptions the embedded code can raise.  `nameError v` models Python's
`UnboundLocalError`/`NameError` for the local variable `v`; `fileNotFound`
carries the two values interpolated into the f-string of line 109 (the
`input_file_path` named in the message and the tuple of search directories
listed by it); the remaining constructors model `re.error` ("bad escape",
"invalid group reference", "octal escape value outside of range"), a failure
of an external render function, and a failure of the external argument
parser. -/
inductive PyErr where
  | nameError (var : String)
  | fileNotFound (path : String) (dirs : List String)
  | badEscape (c : Char)
  | invalidGroup (n : Nat)
  | unknownGroupName (nm : List Char)
  | octalOutOfRange (n : Nat)
  | renderError (msg : String)
  | parseFailure (msg : String)
deriving DecidableEq

/-- Case-insensitive literal match of the tag name (`re.IGNORECASE` on the
interpolated `%s` of line 79): consume `name` from the front of the input,
returning the rest, comparing characters through `Char.toLower`. -/
def dropNameCI : List Char → List Char → Option (List Char)
  | [], s => some s
  | _ :: _, [] => none
  | n :: ns, c :: cs => if n.toLower = c.toLower then dropNameCI ns cs else none

/-- The closing part `\)\s+\x7d\x7d` of the tag pattern, applied at a fixed
position: a `)` followed by a maximal nonempty run of whitespace followed
immediately by `\x7d\x7d`.  (Backtracking inside `\s+` cannot help: giving a
character back leaves a whitespace character where `\x7d` is required.)
Returns the number of characters consumed. -/
def closes : List Char → Option Nat
  | ')' :: t =>
    let w := (t.takeWhile pyWs).length
    if w = 0 then none
    else
      match t.drop w with
      | '\x7d' :: '\x7d' :: _ => some (1 + w + 2)
      | _ => none
  | _ => none

/-- Greedy backtracking for `(.+)\)\s+\x7d\x7d`: try the capture length `k`
from the given upper bound downwards (Python tries the longest capture
first), requiring `closes` to succeed right after the capture; at least one
character must be captured.  Returns (capture length, closing length). -/
def tryK (s : List Char) : Nat → Option (Nat × Nat)
  | 0 => none
  | k + 1 =>
    match closes (s.drop (k + 1)) with
    | some c => some (k + 1, c)
    | none => tryK s k

/-- What `.` matches: any character except a newline. -/
def notNewline (c : Char) : Bool := c ≠ '\n'

/-- The capture group `(.+)` followed by `\)\s+\x7d\x7d`: `.` does not match a
newline, so the capture is bounded by the current line; the greedy engine
takes the longest line prefix after which the closing matches. -/
def greedyArgs (s : List Char) : Option (Nat × Nat) :=
  tryK s ((s.takeWhile notNewline).length)

/-- The tag pattern after its leading-spaces group: `\x7b\x7b\s+NAME\((.+)\)\s+\x7d\x7d`
applied at a fixed position.  The `\s+` before the name is a maximal nonempty
whitespace run (the name begins with a non-whitespace character for every
registered reader, so backtracking inside this `\s+` cannot succeed either).
Returns (number of characters matched, capture group 2). -/
def matchBody (name : List Char) : List Char → Option (Nat × List Char)
  | '\x7b' :: '\x7b' :: r1 =>
    let w := (r1.takeWhile pyWs).length
    if w = 0 then none
    else
      match dropNameCI name (r1.drop w) with
      | none => none
      | some r2 =>
        match r2 with
        | '(' :: r3 =>
          match greedyArgs r3 with
          | some kc => some (2 + w + name.length + 1 + kc.1 + kc.2, r3.take kc.1)
          | none => none
        | _ => none
  | _ => none

/-- What the group `( *)` matches: a space character. -/
def isSpaceChar (c : Char) : Bool := c = ' '

/-- One match attempt of the full pattern `( *)\x7b\x7b...` at a fixed
position: group 1 takes the maximal run of spaces (shorter runs leave a space
where `\x7b` is required, so backtracking cannot rescue a failure).
Returns (total length including the spaces, group 1, group 2). -/
def matchHere (name s : List Char) : Option (Nat × List Char × List Char) :=
  let k := (s.takeWhile isSpaceChar).length
  match matchBody name (s.drop k) with
  | some lg => some (k + lg.1, s.take k, lg.2)
  | none => none

/-- Python's leftmost match: attempt the pattern at positions 0, 1, 2, ... and
return the first success as (start position, length, group 1, group 2). -/
def findLeftmost (name : List Char) : List Char → Option (Nat × Nat × List Char × List Char)
  | [] => (matchHere name []).map (fun lg => (0, lg))
  | c :: t =>
    match matchHere name (c :: t) with
    | some lg => some (0, lg)
    | none => (findLeftmost name t).map (fun r => (r.1 + 1, r.2))

/-- `re.findall` (line 81): repeatedly take the leftmost match and continue
scanning right after it, collecting the `(group 1, group 2)` tuples.  Every
match consumes at least one character, so fuel `s.length + 1` is never
exhausted. -/
def findallAux (name : List Char) : Nat → List Char → List (List Char × List Char)
  | 0, _ => []
  | fuel + 1, s =>
    match findLeftmost name s with
    | none => []
    | some r => (r.2.2.1, r.2.2.2) :: findallAux name fuel (s.drop (r.1 + r.2.1))

/-- `re.findall(tag_pattern, markdown)` of line 81. -/
def findall (name s : List Char) : List (List Char × List Char) :=
  findallAux name (s.length + 1) s

/-- A canonical source-text occurrence of the tag `name` with raw argument
text `args` and single spaces as the tag's inner whitespace:
`\x7b\x7b name(args) \x7d\x7d`.  Used to state properties of the scanner and
the substitutor over arbitrary argument text and surrounding context. -/
def mkOcc (name args : List Char) : List Char :=
  ['\x7b', '\x7b', ' '] ++ name ++ ['('] ++ args ++ [')', ' ', '\x7d', '\x7d']

/-- A parsed piece of a `re.sub` replacement template: a literal character or
a reference to a capture group (0 is the whole match). -/
inductive TmplPiece where
  | lit (c : Char)
  | grp (n : Nat)
deriving DecidableEq

/-- Octal digit test for replacement-template escapes. -/
def isOct (c : Char) : Bool := '0' ≤ c && c ≤ '7'

/-- Numeric value of a run of decimal digits. -/
def natOfDigits (ds : List Char) : Nat :=
  ds.foldl (fun a c => a * 10 + (c.toNat - '0'.toNat)) 0

/-- Numeric value of a run of octal digits. -/
def natOfOct (ds : List Char) : Nat :=
  ds.foldl (fun a c => a * 8 + (c.toNat - '0'.toNat)) 0

/-- The single-character escapes CPython recognises in replacement templates. -/
def templEscape (c : Char) : Option Char :=
  if c = 'n' then some '\n'
  else if c = 't' then some '\t'
  else if c = 'r' then some '\r'
  else if c = 'v' then some '\x0b'
  else if c = 'f' then some '\x0c'
  else if c = 'a' then some '\x07'
  else if c = 'b' then some '\x08'
  else none

/-- CPython's parsing of a string replacement template (`sre_parse.parse_template`),
performed by `Pattern.sub` on the replacement string of line 128 before any
replacement is made.  `\\` is a literal backslash; `\g<n>` references group
`n` (our pattern has two groups, so `n > 2` is an "invalid group reference"
and a non-numeric name is unknown); `\0` plus up to two octal digits is an
octal character escape; `\d` for a nonzero digit `d` is a group reference
(two digits when the next character is a digit; three octal digits form a
character escape instead); `\n`, `\t`, ... are character escapes; any other
escaped ASCII letter is a "bad escape" error; an escaped non-letter keeps
both characters; a trailing lone backslash is an error. -/
def parseTemplateAux : Nat → List Char → Except PyErr (List TmplPiece)
  | 0, _ => .error (.parseFailure "template fuel exhausted")
  | _ + 1, [] => .ok []
  | fuel + 1, c0 :: rest =>
    if c0 ≠ '\\' then (parseTemplateAux fuel rest).map (fun ps => .lit c0 :: ps)
    else
    match rest with
    | [] => .error (.badEscape '\\')
    | '\\' :: r => (parseTemplateAux fuel r).map (fun ps => .lit '\\' :: ps)
    | 'g' :: '<' :: r2 =>
      let nm := r2.takeWhile (fun c => c ≠ '>')
      match r2.drop nm.length with
      | '>' :: r3 =>
        if nm ≠ [] ∧ nm.all Char.isDigit then
          let n := natOfDigits nm
          if n ≤ 2 then (parseTemplateAux fuel r3).map (fun ps => .grp n :: ps)
          else .error (.invalidGroup n)
        else .error (.unknownGroupName nm)
      | _ => .error (.badEscape 'g')
    | 'g' :: _ => .error (.badEscape 'g')
    | '0' :: r =>
      let os := (r.takeWhile isOct).take 2
      (parseTemplateAux fuel (r.drop os.length)).map
        (fun ps => .lit (Char.ofNat (natOfOct os)) :: ps)
    | c :: r =>
      if c.isDigit then
        match r with
        | d2 :: r2 =>
          if d2.isDigit then
            match r2 with
            | d3 :: r3 =>
              if isOct c && isOct d2 && isOct d3 then
                let v := natOfOct [c, d2, d3]
                if v ≤ 255 then
                  (parseTemplateAux fuel r3).map (fun ps => .lit (Char.ofNat v) :: ps)
                else .error (.octalOutOfRange v)
              else
                let n := natOfDigits [c, d2]
                if n ≤ 2 then (parseTemplateAux fuel (d3 :: r3)).map (fun ps => .grp n :: ps)
                else .error (.invalidGroup n)
            | [] =>
              let n := natOfDigits [c, d2]
              if n ≤ 2 then .ok [.grp n] else .error (.invalidGroup n)
          else
            let n := natOfDigits [c]
            if n ≤ 2 then (parseTemplateAux fuel (d2 :: r2)).map (fun ps => .grp n :: ps)
            else .error (.invalidGroup n)
        | [] =>
          let n := natOfDigits [c]
          if n ≤ 2 then .ok [.grp n] else .error (.invalidGroup n)
      else
        match templEscape c with
        | some e => (parseTemplateAux fuel r).map (fun ps => .lit e :: ps)
        | none =>
          if c.isAlpha then .error (.badEscape c)
          else (parseTemplateAux fuel r).map (fun ps => .lit '\\' :: .lit c :: ps)

/-- `parseTemplateAux` started with enough fuel: every recursive call
consumes at least one character of the template while spending one unit of
fuel, so `t.length + 1` units are never exhausted. -/
def parseTemplate (t : List Char) : Except PyErr (List TmplPiece) :=
  parseTemplateAux (t.length + 1) t

/-- Fill a parsed template with the whole match `m0` and the two groups. -/
def renderTemplate (m0 g1 g2 : List Char) : List TmplPiece → List Char
  | [] => []
  | .lit c :: ps => c :: renderTemplate m0 g1 g2 ps
  | .grp 0 :: ps => m0 ++ renderTemplate m0 g1 g2 ps
  | .grp 1 :: ps => g1 ++ renderTemplate m0 g1 g2 ps
  | .grp 2 :: ps => g2 ++ renderTemplate m0 g1 g2 ps
  | .grp _ :: ps => renderTemplate m0 g1 g2 ps

/-- `tag_pattern.sub(template, s, count=1)` of line 128: compile the
replacement template, find the leftmost match, and splice the expanded
template over the matched span; with no match the text is returned
unchanged. -/
def subOnce (name template s : List Char) : Except PyErr (List Char) := do
  let ps ← parseTemplate template
  match findLeftmost name s with
  | none => pure s
  | some r =>
    pure (s.take r.1 ++ renderTemplate ((s.drop r.1).take r.2.1) r.2.2.1 r.2.2.2 ps
      ++ s.drop (r.1 + r.2.1))

/-- Python `str.split('\n')` (line 121): split at every newline, keeping
empty pieces; the empty string yields one empty piece. -/
def splitNl : List Char → List (List Char)
  | [] => [[]]
  | c :: t =>
    if c = '\n' then [] :: splitNl t
    else
      match splitNl t with
      | h :: r => (c :: h) :: r
      | [] => [[c]]

/-- `"\n".join(...)` of line 124. -/
def joinNl (ls : List (List Char)) : List Char :=
  List.intercalate ['\n'] ls

/-- `textwrap.indent(line, pre)` applied to a single line (no newline inside,
as produced by the split of line 121): the default predicate of
`textwrap.indent` is `line.strip()`, so a line consisting solely of
whitespace (or empty) is returned unchanged, and any other line gets the
prefix. -/
def textwrapIndent (pre line : List Char) : List Char :=
  if line.all pyWs then line else pre ++ line

/-- Line 118: `int(len(leading_spaces) / 4) * "    "` — the captured leading
spaces are replaced by `floor(n / 4)` copies of four spaces. -/
def normalizeSpaces (g1 : List Char) : List Char :=
  (List.replicate (g1.length / 4) ("    ".toList)).flatten

/-- Lines 114-124: normalize the captured leading whitespace, split the
rendered table at newlines, indent each line with `textwrap.indent`, and
rejoin. -/
def applyIndent (g1 table : List Char) : List Char :=
  joinNl ((splitNl table).map (textwrapIndent (normalizeSpaces g1)))

/-- Does the first list lead (begin) with the second? -/
def leadsWith : List Char → List Char → Bool
  | _, [] => true
  | [], _ :: _ => false
  | c :: cs, p :: ps => c = p && leadsWith cs ps

/-- Does the string end with the given character? -/
def lastIs (s : String) (c : Char) : Bool :=
  match s.data.getLast? with
  | some d => d = c
  | none => false

/-- Two-argument `os.path.join` on POSIX: an absolute second component
replaces the first; otherwise the components are concatenated with a `/`
unless the first is empty or already ends in `/`. -/
def osPathJoin (a b : String) : String :=
  if leadsWith b.data ['/'] then b
  else if a = "" then b
  else if lastIs a '/' then a ++ b
  else a ++ "/" ++ b

/-- Line 98: `pd_kwargs.get("filepath_or_buffer")` used as a truth value — a
missing key or a falsy (empty-string) value both fail the `if`. -/
def truthyGet (kw : List (String × String)) (k : String) : Option String :=
  match kw.lookup k with
  | some v => if v = "" then none else some v
  | none => none

/-- Line 101: `pd_kwargs["filepath_or_buffer"] = ...` — replace the value of
an existing key, or append the binding. -/
def kwSet (kw : List (String × String)) (k v : String) : List (String × String) :=
  if (kw.lookup k).isSome then kw.map (fun p => if p.1 = k then (k, v) else p)
  else kw ++ [(k, v)]

/-- Lines 91-110, the `for data_path in search_directories:` loop with its
`else` clause, threading the Python local variables through the iterations:
`args`/`kw` are `pd_args`/`pd_kwargs` (mutated in place by lines 96 and 101,
so the *current*, possibly already-joined, first positional value is read at
line 94 of each iteration), and `inp`/`out` are the function-scope locals
`input_file_path` and `output_file_path`, `none` while still unassigned.
These two locals belong to the whole `on_page_markdown` call, so the loop
receives their values as left by earlier occurrences (stale values from a
previous occurrence are re-read when the current occurrence assigns
nothing).  Reading a still-unassigned local (at line 103 for
`output_file_path`, or in the f-string of line 109 for `input_file_path`)
raises an unbound-variable error.  The existence test of line 103 asks for
`os.path.join(mkdocs_dir, output_file_path)`; a hit breaks out of the loop
returning the current `pd_args`/`pd_kwargs` and the locals as they stand;
exhausting the loop raises `FileNotFoundError` naming the current
`input_file_path` and the full original directory list. -/
def resolveGo (mkdocsDir : String) (fsEx : String → Bool) (allDirs : List String) :
    List String → List String → List (String × String) → Option String → Option String →
    Except PyErr (List String × List (String × String) × Option String × Option String)
  | [], _args, _kw, inp, _out =>
    match inp with
    | none => .error (.nameError "input_file_path")
    | some i => .error (.fileNotFound i allDirs)
  | d :: rest, args, kw, inp, out =>
    let s1 : List String × Option String × Option String :=
      match args with
      | a0 :: _ => (args.set 0 (osPathJoin d a0), some a0, some (osPathJoin d a0))
      | [] => (args, inp, out)
    let s2 : List (String × String) × Option String × Option String :=
      match truthyGet kw "filepath_or_buffer" with
      | some v => (kwSet kw "filepath_or_buffer" (osPathJoin d v), some v, some (osPathJoin d v))
      | none => (kw, s1.2.1, s1.2.2)
    match s2.2.2 with
    | none => .error (.nameError "output_file_path")
    | some o =>
      if fsEx (osPathJoin mkdocsDir o) then .ok (s1.1, s2.1, s2.2.1, s2.2.2)
      else resolveGo mkdocsDir fsEx allDirs rest s1.1 s2.1 s2.2.1 s2.2.2

/-- The search loop of lines 91-110 started on the full directory list, with
the values the function-scope locals `input_file_path`/`output_file_path`
have when the occurrence is reached (`none` = still unassigned, as at the
start of the `on_page_markdown` call). -/
def resolveLoop (mkdocsDir : String) (dirs : List String) (fsEx : String → Bool)
    (args : List String) (kw : List (String × String)) (inp out : Option String) :
    Except PyErr (List String × List (String × String) × Option String × Option String) :=
  resolveGo mkdocsDir fsEx dirs dirs args kw inp out

/-- Split a character list at every `/`. -/
def splitSlash : List Char → List (List Char)
  | [] => [[]]
  | c :: t =>
    if c = '/' then [] :: splitSlash t
    else
      match splitSlash t with
      | h :: r => (c :: h) :: r
      | [] => [[c]]

/-- POSIX resolution of `.` segments and duplicate slashes, used only to model
which path strings the operating system reports as existing in the concrete
scenarios (`os.path.exists` resolves `./` components; no `..` or symlinks
appear in the scenarios). -/
def normalizePath (p : String) : String :=
  let segs := (splitSlash p.data).filter (fun s => s ≠ [] && s ≠ ['.'])
  String.mk ((if leadsWith p.data ['/'] then ['/'] else []) ++ List.intercalate ['/'] segs)

/-- Modelled from the spec: the context manager `cd` of
`mkdocs_table_reader_plugin/utils.py` (used by line 89 as `with cd(mkdocs_dir):`)
is not under `src/`; per spec §4.2/§5 it temporarily and safely sets the
working directory to the target for the duration of the body and restores
the saved directory afterwards regardless of success or failure.  The state
is the current working directory, passed explicitly: the body receives the
target as its ambient directory, and the returned directory is the saved
one on both the success and the error path. -/
def cdScope {α : Type} (target : String) (body : String → Except PyErr α)
    (cwd : String) : Except PyErr α × String :=
  let saved := cwd
  let res := body target
  (res, saved)

/-- The external argument parser (`safe_eval.parse_argkwarg`, line 86; not
under `src/`): from the raw group-2 text to positional and keyword values.
The claims under verification only move path-like string values, so values
are modelled as strings. -/
def ParseFn : Type :=
  List Char → Except PyErr (List String × List (String × String))

/-- An external render function from the `READERS` registry (line 73; not
under `src/`): given the ambient working directory and the (path-rewritten)
positional and keyword arguments, produce the markdown table text or fail. -/
def RenderFn : Type :=
  String → List String → List (String × String) → Except PyErr (List Char)

/-- Lines 83-128, the body of `for result in matches:` for one occurrence:
parse the arguments (line 86, outside the directory change), then under
`cd(mkdocs_dir)` run the search loop and the render call (lines 89-112),
then fix the indentation and substitute the first occurrence of the pattern
(lines 114-128).  `inp`/`out` are the values of the function-scope locals
`input_file_path`/`output_file_path` when the occurrence is reached; on
success the step returns the updated document together with the locals'
values for the next occurrence (an exception aborts the whole call, so the
locals' values on the error paths are never observed).  The pair returned is
(result, working directory after the step). -/
def stepMatch (name : List Char) (render : RenderFn) (parse : ParseFn)
    (mkdocsDir : String) (dirs : List String) (fsEx : String → Bool)
    (m : List Char × List Char) (markdown : List Char) (inp out : Option String)
    (cwd : String) : Except PyErr (List Char × Option String × Option String) × String :=
  match parse m.2 with
  | .error e => (.error e, cwd)
  | .ok (args, kw) =>
    let r := cdScope mkdocsDir (fun cwdIn =>
      match resolveLoop mkdocsDir dirs fsEx args kw inp out with
      | .error e => .error e
      | .ok (args2, kw2, inp2, out2) =>
        match render cwdIn args2 kw2 with
        | .error e => .error e
        | .ok table => .ok (table, inp2, out2)) cwd
    match r.1 with
    | .error e => (.error e, r.2)
    | .ok tio =>
      ((subOnce name (applyIndent m.1 tio.1) markdown).map
        (fun md2 => (md2, tio.2.1, tio.2.2)), r.2)

/-- The occurrence loop of line 83: process the matches in discovery order,
threading the document text and the function-scope path locals; an exception
aborts the rest of the loop (and of the document's processing) immediately. -/
def goMatches (name : List Char) (render : RenderFn) (parse : ParseFn)
    (mkdocsDir : String) (dirs : List String) (fsEx : String → Bool) :
    List (List Char × List Char) → List Char → Option String → Option String → String →
    Except PyErr (List Char × Option String × Option String) × String
  | [], md, inp, out, cwd => (.ok (md, inp, out), cwd)
  | m :: rest, md, inp, out, cwd =>
    match stepMatch name render parse mkdocsDir dirs fsEx m md inp out cwd with
    | (.ok (md2, inp2, out2), cwd2) =>
      goMatches name render parse mkdocsDir dirs fsEx rest md2 inp2 out2 cwd2
    | (.error e, cwd2) => (.error e, cwd2)

/-- Lines 78-128 for one registered reader: find all occurrences of its tag
up front, then process them in order, starting from the given values of the
function-scope path locals (left behind by earlier readers' occurrences). -/
def processTag (name : List Char) (render : RenderFn) (parse : ParseFn)
    (mkdocsDir : String) (dirs : List String) (fsEx : String → Bool)
    (markdown : List Char) (inp out : Option String) (cwd : String) :
    Except PyErr (List Char × Option String × Option String) × String :=
  goMatches name render parse mkdocsDir dirs fsEx (findall name markdown) markdown inp out cwd

/-- The reader loop of line 73, threading the document and the function-scope
path locals across readers; an exception propagates immediately. -/
def processDocumentGo (parse : ParseFn) (mkdocsDir : String) (dirs : List String)
    (fsEx : String → Bool) :
    List (List Char × RenderFn) → List Char → Option String → Option String → String →
    Except PyErr (List Char × Option String × Option String) × String
  | [], md, inp, out, cwd => (.ok (md, inp, out), cwd)
  | (n, f) :: rest, md, inp, out, cwd =>
    match processTag n f parse mkdocsDir dirs fsEx md inp out cwd with
    | (.ok (md2, inp2, out2), cwd2) =>
      processDocumentGo parse mkdocsDir dirs fsEx rest md2 inp2 out2 cwd2
    | (.error e, cwd2) => (.error e, cwd2)

/-- Lines 73-131, `on_page_markdown` proper: iterate the (external) `READERS`
registry in order over the document; at entry to the call the locals
`input_file_path`/`output_file_path` are unassigned. -/
def processDocument (registry : List (List Char × RenderFn)) (parse : ParseFn)
    (mkdocsDir : String) (dirs : List String) (fsEx : String → Bool)
    (markdown : List Char) (cwd : String) :
    Except PyErr (List Char × Option String × Option String) × String :=
  processDocumentGo parse mkdocsDir dirs fsEx registry markdown none none cwd

/-! ## Theorems -/

/-! ### List utilities -/

theorem takeWhile_append_of_all {q : Char → Bool} (l1 l2 : List Char)
    (h : ∀ a ∈ l1, q a = true) :
    (l1 ++ l2).takeWhile q = l1 ++ l2.takeWhile q := by
  induction l1 with
  | nil => rfl
  | cons c t ih =>
    have hc := h c (List.mem_cons_self c t)
    simp only [List.cons_append, List.takeWhile_cons, hc, if_true]
    rw [ih (fun a ha => h a (List.mem_cons_of_mem c ha))]

theorem drop_length_takeWhile {q : Char → Bool} (z : List Char) :
    z.drop ((z.takeWhile q).length) = z.dropWhile q := by
  induction z with
  | nil => rfl
  | cons c t ih =>
    by_cases hc : q c
    · simp [List.takeWhile_cons, List.dropWhile_cons, hc, ih]
    · simp [List.takeWhile_cons, List.dropWhile_cons, hc]

theorem head?_dropWhile_not {q : Char → Bool} (z : List Char) (c : Char)
    (h : (z.dropWhile q).head? = some c) : q c = false := by
  induction z with
  | nil => simp at h
  | cons d t ih =>
    by_cases hd : q d
    · exact ih (by simpa [List.dropWhile_cons, hd] using h)
    · simp only [List.dropWhile_cons, hd, if_false] at h
      have h2 : some d = some c := h
      injection h2 with hdc
      rw [← hdc]
      simpa using hd

/-! ### Matcher lemmas -/

theorem notNewline_mem_takeWhile {z : List Char} {d : Char}
    (h : d ∈ z.takeWhile notNewline) : d ≠ '\n' := by
  have := List.mem_takeWhile_imp h
  simpa [notNewline] using this

theorem closes_cons_ne (c : Char) (t : List Char) (hc : c ≠ ')') :
    closes (c :: t) = none := by
  unfold closes
  split
  · rename_i heq
    injection heq with h1 _
    exact absurd h1 hc
  · rfl

theorem tryK_eq_none (s : List Char) (j : Nat)
    (H : ∀ k, 1 ≤ k → k ≤ j → closes (s.drop k) = none) : tryK s j = none := by
  induction j with
  | zero => rfl
  | succ k ih =>
    unfold tryK
    rw [H (k + 1) (by omega) (by omega)]
    exact ih (fun k2 h1 h2 => H k2 h1 (by omega))

theorem tryK_eq_some (s : List Char) (lo c : Nat) (hlo : 1 ≤ lo)
    (hc : closes (s.drop lo) = some c) (d : Nat)
    (H : ∀ k, lo < k → k ≤ lo + d → closes (s.drop k) = none) :
    tryK s (lo + d) = some (lo, c) := by
  induction d with
  | zero =>
    cases lo with
    | zero => omega
    | succ m =>
      simp only [Nat.add_zero]
      unfold tryK
      rw [hc]
  | succ d ih =>
    have he : lo + (d + 1) = (lo + d) + 1 := by omega
    rw [he]
    unfold tryK
    rw [H (lo + d + 1) (by omega) (by omega)]
    exact ih (fun k h1 h2 => H k h1 (by omega))

/-- Every position at or before the end of the current line of `z` fails the
closing pattern, provided the line contains no `)`. -/
theorem closes_in_line_none (z : List Char) (m : Nat)
    (hz : ')' ∉ z.takeWhile notNewline)
    (hm : m ≤ (z.takeWhile notNewline).length) :
    closes (z.drop m) = none := by
  rcases Nat.lt_or_ge m (z.takeWhile notNewline).length with hlt | hge
  · conv_lhs => rw [show z = z.takeWhile notNewline ++ z.dropWhile notNewline from
      (List.takeWhile_append_dropWhile _ _).symm]
    rw [List.drop_append_of_le_length (by omega)]
    rcases hdr : (z.takeWhile notNewline).drop m with _ | ⟨d, ds⟩
    · have := congrArg List.length hdr
      simp [List.length_drop] at this
      omega
    · have hdmem : d ∈ z.takeWhile notNewline :=
        (List.drop_sublist m _).mem (hdr ▸ List.mem_cons_self d ds)
      exact closes_cons_ne d _ (fun he => hz (by rw [he] at hdmem; exact hdmem))
  · have hme : m = (z.takeWhile notNewline).length := by omega
    rw [hme, drop_length_takeWhile]
    rcases hdw : z.dropWhile notNewline with _ | ⟨d, ds⟩
    · rfl
    · have hd : notNewline d = false :=
        head?_dropWhile_not z d (by rw [hdw]; rfl)
      have hdn : d = '\n' := by simpa [notNewline] using hd
      exact closes_cons_ne d ds (by rw [hdn]; decide)

/-- The greedy capture `(.+)\)\s+\x7d\x7d` applied to
`A ++ ") \x7d\x7d" ++ z`: when `A` is a nonempty newline-free capture and the
current line of `z` holds no `)`, the engine captures exactly `A` (no longer
capture can reach a closing) and consumes 4 closing characters. -/
theorem greedyArgs_at (A z : List Char) (hA1 : A ≠ []) (hA2 : '\n' ∉ A)
    (hz : ')' ∉ z.takeWhile notNewline) :
    greedyArgs (A ++ [')', ' ', '\x7d', '\x7d'] ++ z) = some (A.length, 4) := by
  have hAq : ∀ a ∈ A, notNewline a = true := by
    intro a ha
    simp only [notNewline, ne_eq, decide_eq_true_eq]
    exact fun he => hA2 (he ▸ ha)
  have hL : ((A ++ [')', ' ', '\x7d', '\x7d'] ++ z).takeWhile notNewline).length
      = A.length + (4 + (z.takeWhile notNewline).length) := by
    rw [List.append_assoc, takeWhile_append_of_all A _ hAq,
      takeWhile_append_of_all [')', ' ', '\x7d', '\x7d'] z (by decide)]
    simp only [List.length_append, List.length_cons, List.length_nil]
  have hclo : closes ((A ++ [')', ' ', '\x7d', '\x7d'] ++ z).drop A.length) = some 4 := by
    rw [List.append_assoc, List.drop_left]
    rfl
  have hAlen : 1 ≤ A.length := by
    cases A with
    | nil => exact absurd rfl hA1
    | cons a t => simp
  unfold greedyArgs
  rw [hL]
  refine tryK_eq_some _ A.length 4 hAlen hclo (4 + (z.takeWhile notNewline).length)
    (fun k h1 h2 => ?_)
  obtain ⟨i, rfl⟩ : ∃ i, k = A.length + i := ⟨k - A.length, by omega⟩
  have hdrop : (A ++ [')', ' ', '\x7d', '\x7d'] ++ z).drop (A.length + i)
      = ([')', ' ', '\x7d', '\x7d'] ++ z).drop i := by
    rw [List.append_assoc, List.drop_append]
  rw [hdrop]
  match i, h1, h2 with
  | 0, h1, _ => omega
  | 1, _, _ => exact closes_cons_ne ' ' _ (by decide)
  | 2, _, _ => exact closes_cons_ne '\x7d' _ (by decide)
  | 3, _, _ => exact closes_cons_ne '\x7d' _ (by decide)
  | m + 4, _, h2 =>
    show closes (z.drop m) = none
    exact closes_in_line_none z m hz (by omega)

theorem dropNameCI_self (name r : List Char) : dropNameCI name (name ++ r) = some r := by
  induction name with
  | nil => rfl
  | cons n ns ih => simp [dropNameCI, ih]

theorem matchBody_ne_brace (name : List Char) (c : Char) (t : List Char) (hc : c ≠ '\x7b') :
    matchBody name (c :: t) = none := by
  unfold matchBody
  split
  · rename_i heq
    injection heq with h1 _
    exact absurd h1 hc
  · rfl

/-- The body of the pattern matches a canonical occurrence exactly: it
consumes the whole occurrence and captures its argument text, provided the
name is a nonempty whitespace-free identifier, the argument text is nonempty
and newline-free, and the rest of the occurrence's line (the line-prefix of
`z`) has no `)` that would let the greedy capture extend further. -/
theorem matchBody_at (name args z : List Char)
    (hn1 : name ≠ []) (hn2 : ∀ c ∈ name, pyWs c = false)
    (ha1 : args ≠ []) (ha2 : '\n' ∉ args)
    (hz : ')' ∉ z.takeWhile notNewline) :
    matchBody name (mkOcc name args ++ z) = some ((mkOcc name args).length, args) := by
  obtain ⟨n, ns, rfl⟩ : ∃ n ns, name = n :: ns := by
    cases name with
    | nil => exact absurd rfl hn1
    | cons n ns => exact ⟨n, ns, rfl⟩
  have hshape : mkOcc (n :: ns) args ++ z
      = '\x7b' :: '\x7b' :: ' ' :: n ::
          (ns ++ ('(' :: (args ++ ([')', ' ', '\x7d', '\x7d'] ++ z)))) := by
    simp [mkOcc, List.append_assoc]
  rw [hshape]
  have hpn : pyWs n = false := hn2 n (List.mem_cons_self n ns)
  have htw : ((' ' :: n :: (ns ++ ('(' :: (args ++ ([')', ' ', '\x7d', '\x7d'] ++ z))))).takeWhile
      pyWs) = [' '] := by
    rw [List.takeWhile_cons, List.takeWhile_cons]
    simp [hpn, show pyWs ' ' = true from rfl]
  have hga : greedyArgs (args ++ ([')', ' ', '\x7d', '\x7d'] ++ z)) = some (args.length, 4) := by
    have := greedyArgs_at args z ha1 ha2 hz
    rwa [List.append_assoc] at this
  have hdn : dropNameCI (n :: ns) (n :: (ns ++ ('(' :: (args ++ ([')', ' ', '\x7d', '\x7d'] ++ z)))))
      = some ('(' :: (args ++ ([')', ' ', '\x7d', '\x7d'] ++ z))) := by
    have := dropNameCI_self (n :: ns) ('(' :: (args ++ ([')', ' ', '\x7d', '\x7d'] ++ z)))
    simpa using this
  simp only [matchBody, htw, List.length_cons, List.length_nil, hdn, hga, List.drop_succ_cons,
    List.drop_zero]
  have htake : (args ++ ([')', ' ', '\x7d', '\x7d'] ++ z)).take args.length = args :=
    List.take_left args _
  simp only [htake]
  rw [if_neg (by omega : ¬(0 + 1 = 0))]
  refine congrArg some ?_
  simp only [Prod.mk.injEq, and_true]
  simp only [mkOcc, List.length_append, List.length_cons, List.length_nil]

/-- The full pattern at a canonical occurrence: no leading spaces are
captured (the occurrence starts with a brace). -/
theorem matchHere_at (name args z : List Char)
    (hn1 : name ≠ []) (hn2 : ∀ c ∈ name, pyWs c = false)
    (ha1 : args ≠ []) (ha2 : '\n' ∉ args)
    (hz : ')' ∉ z.takeWhile notNewline) :
    matchHere name (mkOcc name args ++ z) = some ((mkOcc name args).length, [], args) := by
  have hcons : mkOcc name args ++ z
      = '\x7b' :: ('\x7b' :: ' ' :: (name ++ (['('] ++ (args ++ ([')', ' ', '\x7d', '\x7d'] ++ z))))) := by
    simp [mkOcc, List.append_assoc]
  unfold matchHere
  rw [hcons]
  have htw : (('\x7b' :: ('\x7b' :: ' ' :: (name ++ (['('] ++ (args ++ ([')', ' ', '\x7d', '\x7d'] ++ z)))))).takeWhile
      isSpaceChar) = [] := by
    rw [List.takeWhile_cons]
    simp [isSpaceChar]
  rw [htw]
  simp only [List.length_nil, List.drop_zero, List.take_zero]
  rw [← hcons, matchBody_at name args z hn1 hn2 ha1 ha2 hz]
  simp

theorem findLeftmost_eq (name s : List Char) :
    findLeftmost name s
      = match matchHere name s with
        | some lg => some (0, lg)
        | none =>
          match s with
          | [] => none
          | _ :: t => (findLeftmost name t).map (fun r => (r.1 + 1, r.2)) := by
  cases s with
  | nil =>
    unfold findLeftmost
    cases matchHere name [] <;> rfl
  | cons c t => rfl

theorem matchBody_pos (name s : List Char) (lg : Nat × List Char)
    (h : matchBody name s = some lg) : 0 < lg.1 := by
  unfold matchBody at h
  split at h
  · simp only [] at h
    split at h
    · exact Option.noConfusion h
    · split at h
      · exact Option.noConfusion h
      · split at h
        · split at h
          · injection h with hpair
            have h1 := congrArg Prod.fst hpair
            simp only at h1
            omega
          · exact Option.noConfusion h
        · exact Option.noConfusion h
  · exact Option.noConfusion h

theorem matchHere_pos (name s : List Char) (lg : Nat × List Char × List Char)
    (h : matchHere name s = some lg) : 0 < lg.1 := by
  unfold matchHere at h
  simp only [] at h
  split at h
  · rename_i lg0 heq
    injection h with hpair
    have h1 := congrArg Prod.fst hpair
    simp only at h1
    have := matchBody_pos name _ lg0 heq
    omega
  · exact Option.noConfusion h

theorem findLeftmost_nil (name : List Char) : findLeftmost name [] = none := rfl

theorem findLeftmost_pos (name : List Char) :
    ∀ (s : List Char) (r : Nat × Nat × List Char × List Char),
    findLeftmost name s = some r → 0 < r.2.1 := by
  intro s
  induction s with
  | nil =>
    intro r h
    rw [findLeftmost_nil] at h
    exact Option.noConfusion h
  | cons c t ih =>
    intro r h
    rw [findLeftmost_eq] at h
    split at h
    · rename_i lg heq
      injection h with hpair
      have h1 := congrArg (fun x => x.2.1) hpair
      simp only at h1
      have := matchHere_pos name _ lg heq
      omega
    · split at h
      · exact Option.noConfusion h
      rename_i x2 c2 t2 heq2
      injection heq2 with hc2 ht2
      subst ht2
      rcases ho : findLeftmost name t with _ | r0
      · rw [ho] at h
        exact Option.noConfusion h
      · rw [ho] at h
        have h2 : some (r0.1 + 1, r0.2) = some r := h
        injection h2 with hpair
        have h1 := congrArg (fun x => x.2.1) hpair
        simp only at h1
        have := ih r0 ho
        omega

theorem findallAux_succ_none (name : List Char) (g : Nat) (s : List Char)
    (h : findLeftmost name s = none) : findallAux name (g + 1) s = [] := by
  show (match findLeftmost name s with
    | none => ([] : List (List Char × List Char))
    | some r => (r.2.2.1, r.2.2.2) :: findallAux name g (s.drop (r.1 + r.2.1))) = []
  rw [h]

theorem findallAux_succ_some (name : List Char) (g : Nat) (s : List Char)
    (r : Nat × Nat × List Char × List Char) (h : findLeftmost name s = some r) :
    findallAux name (g + 1) s
      = (r.2.2.1, r.2.2.2) :: findallAux name g (s.drop (r.1 + r.2.1)) := by
  show (match findLeftmost name s with
    | none => ([] : List (List Char × List Char))
    | some r => (r.2.2.1, r.2.2.2) :: findallAux name g (s.drop (r.1 + r.2.1))) = _
  rw [h]

theorem findallAux_fuel (name : List Char) (f1 : Nat) :
    ∀ (f2 : Nat) (s : List Char), s.length < f1 → s.length < f2 →
    findallAux name f1 s = findallAux name f2 s := by
  induction f1 with
  | zero => intro f2 s h1 _; omega
  | succ g ih =>
    intro f2 s h1 h2
    cases f2 with
    | zero => omega
    | succ g2 =>
      rcases hf : findLeftmost name s with _ | r
      · rw [findallAux_succ_none name g s hf, findallAux_succ_none name g2 s hf]
      · have hpos := findLeftmost_pos name s r hf
        have hnil : s ≠ [] := by
          intro he
          rw [he, findLeftmost_nil] at hf
          exact Option.noConfusion hf
        have hone : 1 ≤ s.length := by
          cases s with
          | nil => exact absurd rfl hnil
          | cons a t => simp
        have hd1 : (s.drop (r.1 + r.2.1)).length < g := by
          rw [List.length_drop]; omega
        have hd2 : (s.drop (r.1 + r.2.1)).length < g2 := by
          rw [List.length_drop]; omega
        rw [findallAux_succ_some name g s r hf, findallAux_succ_some name g2 s r hf,
          ih g2 _ hd1 hd2]

theorem findall_cons (name s : List Char) (r : Nat × Nat × List Char × List Char)
    (hf : findLeftmost name s = some r) :
    findall name s = (r.2.2.1, r.2.2.2) :: findall name (s.drop (r.1 + r.2.1)) := by
  have hpos := findLeftmost_pos name s r hf
  have hnil : s ≠ [] := by
    intro he
    rw [he, findLeftmost_nil] at hf
    exact Option.noConfusion hf
  have hone : 1 ≤ s.length := by
    cases s with
    | nil => exact absurd rfl hnil
    | cons a t => simp
  unfold findall
  rw [findallAux_succ_some name s.length s r hf]
  rw [findallAux_fuel name s.length ((s.drop (r.1 + r.2.1)).length + 1) (s.drop (r.1 + r.2.1))
    (by rw [List.length_drop]; omega) (by omega)]

theorem findall_none (name s : List Char) (hf : findLeftmost name s = none) :
    findall name s = [] := by
  unfold findall
  exact findallAux_succ_none name s.length s hf

/-- The leftmost match at position 0, at a canonical occurrence. -/
theorem findLeftmost_at (name args z : List Char)
    (hn1 : name ≠ []) (hn2 : ∀ c ∈ name, pyWs c = false)
    (ha1 : args ≠ []) (ha2 : '\n' ∉ args)
    (hz : ')' ∉ z.takeWhile notNewline) :
    findLeftmost name (mkOcc name args ++ z)
      = some (0, (mkOcc name args).length, [], args) := by
  rw [findLeftmost_eq, matchHere_at name args z hn1 hn2 ha1 ha2 hz]

theorem takeWhile_append_of_stop {q : Char → Bool} (u v : List Char)
    (h : u.dropWhile q ≠ []) :
    (u ++ v).takeWhile q = u.takeWhile q ∧ (u ++ v).dropWhile q = u.dropWhile q ++ v := by
  induction u with
  | nil => exact absurd rfl h
  | cons c t ih =>
    by_cases hc : q c
    · have h2 : t.dropWhile q ≠ [] := by
        simpa [List.dropWhile_cons, hc] using h
      obtain ⟨ht, hd⟩ := ih h2
      constructor
      · simp [List.takeWhile_cons, hc, ht]
      · simp [List.dropWhile_cons, hc, hd]
    · constructor
      · simp [List.takeWhile_cons, hc]
      · simp [List.dropWhile_cons, hc]

/-- A match attempt cannot start inside a context piece holding no `\x7b` and
not ending in a space: the captured space run stays inside the piece and the
first character after it cannot open a brace pair. -/
theorem matchHere_none_push (name u v : List Char)
    (hu : '\x7b' ∉ u) (hne : u ≠ []) (hlast : u.getLast? ≠ some ' ') :
    matchHere name (u ++ v) = none := by
  have hds : u.dropWhile isSpaceChar ≠ [] := by
    intro hnil2
    have hall := List.dropWhile_eq_nil_iff.mp hnil2
    have hgl : u.getLast? = some (u.getLast hne) := List.getLast?_eq_getLast u hne
    have hmem : u.getLast hne ∈ u := List.getLast_mem hne
    have hsp := hall _ hmem
    have heq : u.getLast hne = ' ' := by simpa [isSpaceChar] using hsp
    exact hlast (by rw [hgl, heq])
  obtain ⟨htw, hdw⟩ := takeWhile_append_of_stop u v hds
  have key : matchBody name ((u ++ v).drop (((u ++ v).takeWhile isSpaceChar).length)) = none := by
    rw [drop_length_takeWhile, hdw]
    rcases hd2 : u.dropWhile isSpaceChar with _ | ⟨d, ds⟩
    · exact absurd hd2 hds
    · have hdmem : d ∈ u := (List.dropWhile_sublist _).mem
        (by rw [hd2]; exact List.mem_cons_self d ds)
      rw [List.cons_append]
      exact matchBody_ne_brace name d (ds ++ v) (fun he => hu (he ▸ hdmem))
  simp only [matchHere, key]

theorem matchHere_none_no_brace (name s : List Char) (hs : '\x7b' ∉ s) :
    matchHere name s = none := by
  have key : matchBody name (s.drop ((s.takeWhile isSpaceChar).length)) = none := by
    rw [drop_length_takeWhile]
    rcases hdw : s.dropWhile isSpaceChar with _ | ⟨d, ds⟩
    · rfl
    · have hdmem : d ∈ s := (List.dropWhile_sublist _).mem
        (by rw [hdw]; exact List.mem_cons_self d ds)
      exact matchBody_ne_brace name d ds (fun he => hs (he ▸ hdmem))
  simp only [matchHere, key]

/-- No match starts anywhere in a brace-free text. -/
theorem findLeftmost_no_brace (name : List Char) :
    ∀ (s : List Char), '\x7b' ∉ s → findLeftmost name s = none := by
  intro s
  induction s with
  | nil => intro _; rfl
  | cons c t ih =>
    intro hs
    have h1 : matchHere name (c :: t) = none := matchHere_none_no_brace name _ hs
    show (match matchHere name (c :: t) with
      | some lg => some (0, lg)
      | none => (findLeftmost name t).map (fun r => (r.1 + 1, r.2))) = none
    rw [h1, ih (fun hm => hs (List.mem_cons_of_mem c hm))]
    rfl

/-- Scanning skips a context piece holding no `\x7b` and not ending in a
space: the leftmost match of the rest is found, its position shifted. -/
theorem findLeftmost_skip (name : List Char) :
    ∀ (u v : List Char), '\x7b' ∉ u → u.getLast? ≠ some ' ' →
    findLeftmost name (u ++ v)
      = (findLeftmost name v).map (fun r => (r.1 + u.length, r.2)) := by
  intro u
  induction u with
  | nil =>
    intro v _ _
    cases h : findLeftmost name v with
    | none => simp [h]
    | some r => simp [h]
  | cons c t ih =>
    intro v hu hlast
    have hne : matchHere name ((c :: t) ++ v) = none :=
      matchHere_none_push name (c :: t) v hu (by simp) hlast
    have step : findLeftmost name ((c :: t) ++ v)
        = (findLeftmost name (t ++ v)).map (fun r => (r.1 + 1, r.2)) := by
      show (match matchHere name ((c :: t) ++ v) with
        | some lg => some (0, lg)
        | none => (findLeftmost name (t ++ v)).map
            (fun (r : Nat × Nat × List Char × List Char) => (r.1 + 1, r.2))) = _
      rw [hne]
    rw [step]
    cases t with
    | nil =>
      cases h : findLeftmost name v with
      | none => simp [h]
      | some r => simp [h]
    | cons b l =>
      have hlast2 : (b :: l).getLast? ≠ some ' ' := by
        rwa [List.getLast?_cons_cons] at hlast
      have hu2 : '\x7b' ∉ (b :: l) := fun hm => hu (List.mem_cons_of_mem c hm)
      rw [ih v hu2 hlast2]
      cases h : findLeftmost name v with
      | none => simp [h]
      | some r => simp [h, Nat.add_assoc]

/-- A text with `\n` inside determines its own first line: appending anything
after it cannot extend the line. -/
theorem takeWhile_line_append (s2 w : List Char) (h : '\n' ∈ s2) :
    (s2 ++ w).takeWhile notNewline = s2.takeWhile notNewline := by
  induction s2 with
  | nil => simp at h
  | cons c t ih =>
    by_cases hc : c = '\n'
    · subst hc
      simp [List.takeWhile_cons, notNewline]
    · have h2 : '\n' ∈ t := by
        rcases List.mem_cons.mp h with h3 | h3
        · exact absurd h3.symm hc
        · exact h3
      have hcn : notNewline c = true := by simp [notNewline, hc]
      simp [List.takeWhile_cons, hcn, ih h2]

/-- A template without a backslash parses to its own characters as literals. -/
theorem parseTemplateAux_no_backslash (t : List Char) :
    ∀ fuel, t.length < fuel → '\\' ∉ t →
    parseTemplateAux fuel t = .ok (t.map TmplPiece.lit) := by
  induction t with
  | nil =>
    intro fuel h _
    cases fuel with
    | zero => omega
    | succ g => rfl
  | cons c r ih =>
    intro fuel h hnb
    cases fuel with
    | zero => omega
    | succ g =>
      have hc : c ≠ '\\' := fun he => hnb (he ▸ List.mem_cons_self c r)
      have hr : '\\' ∉ r := fun hm => hnb (List.mem_cons_of_mem c hm)
      unfold parseTemplateAux
      rw [if_pos hc, ih g (by simp at h; omega) hr]
      rfl

theorem parseTemplate_no_backslash (t : List Char) (h : '\\' ∉ t) :
    parseTemplate t = .ok (t.map TmplPiece.lit) :=
  parseTemplateAux_no_backslash t (t.length + 1) (by omega) h

theorem renderTemplate_lits (m0 g1 g2 t : List Char) :
    renderTemplate m0 g1 g2 (t.map TmplPiece.lit) = t := by
  induction t with
  | nil => rfl
  | cons c r ih => simp [renderTemplate, ih]

/-- A backslash-free replacement is inserted verbatim over the leftmost
match. -/
theorem subOnce_verbatim (name f s : List Char) (r : Nat × Nat × List Char × List Char)
    (hnb : '\\' ∉ f) (hf : findLeftmost name s = some r) :
    subOnce name f s = .ok (s.take r.1 ++ f ++ s.drop (r.1 + r.2.1)) := by
  unfold subOnce
  rw [parseTemplate_no_backslash f hnb, hf]
  show Except.ok (s.take r.1 ++ renderTemplate ((s.drop r.1).take r.2.1) r.2.2.1 r.2.2.2
    (f.map TmplPiece.lit) ++ s.drop (r.1 + r.2.1)) = _
  rw [renderTemplate_lits]

theorem flatten_replicate_four (k : Nat) :
    (List.replicate k ("    ".toList)).flatten = List.replicate (4 * k) ' ' := by
  induction k with
  | zero => rfl
  | succ m ih =>
    rw [List.replicate_succ, List.flatten_cons, ih]
    have h4 : "    ".toList = List.replicate 4 ' ' := rfl
    rw [h4, ← List.replicate_add]
    congr 1
    omega

theorem normalizeSpaces_replicate (n : Nat) :
    normalizeSpaces (List.replicate n ' ') = List.replicate (4 * (n / 4)) ' ' := by
  unfold normalizeSpaces
  rw [List.length_replicate, flatten_replicate_four]

/-- C4 amended.  The indentation applied to the substituted output is
`floor(n/4) * 4` spaces for `n` captured spaces, and it prefixes exactly the
lines of the fragment that contain a non-whitespace character; empty and
whitespace-only lines are left unchanged (the predicate of
`textwrap.indent`). -/
theorem C4_amended_blank_lines_unindented (n : Nat) (frag : List Char) :
    applyIndent (List.replicate n ' ') frag
      = joinNl ((splitNl frag).map (fun line =>
          if line.all pyWs then line else List.replicate (4 * (n / 4)) ' ' ++ line)) := by
  unfold applyIndent
  rw [normalizeSpaces_replicate]
  rfl

/-- C6 amended.  Line 128 passes the rendered fragment to `re.sub` as a
replacement template, so backslash escapes in it are interpreted; a fragment
containing no backslash is inserted verbatim over the span of the leftmost
match, with the rest of the text unchanged. -/
theorem C6_amended_backslash_free_inserted_verbatim (name f s : List Char)
    (p l : Nat) (g1 g2 : List Char) (hnb : '\\' ∉ f)
    (hf : findLeftmost name s = some (p, l, g1, g2)) :
    subOnce name f s = .ok (s.take p ++ f ++ s.drop (p + l)) :=
  subOnce_verbatim name f s (p, l, g1, g2) hnb hf

/-- Witness for the amended C6 at a concrete input. -/
theorem C6_amended_backslash_free_inserted_verbatim_witness :
    subOnce "read_csv".toList "TAB".toList "A \x7b\x7b read_csv(t) \x7d\x7d B".toList
      = .ok ("ATAB B".toList) := by
  have h := C6_amended_backslash_free_inserted_verbatim "read_csv".toList "TAB".toList
    "A \x7b\x7b read_csv(t) \x7d\x7d B".toList 1 18 " ".toList "t".toList
    (by decide) (by decide)
  rw [h]
  decide

theorem greedyArgs_empty_close (rest : List Char)
    (hz : ')' ∉ rest.takeWhile notNewline) :
    greedyArgs ([')', ' ', '\x7d', '\x7d'] ++ rest) = none := by
  have hL : (([')', ' ', '\x7d', '\x7d'] ++ rest).takeWhile notNewline).length
      = 4 + (rest.takeWhile notNewline).length := by
    rw [takeWhile_append_of_all [')', ' ', '\x7d', '\x7d'] rest (by decide)]
    simp
    omega
  unfold greedyArgs
  refine tryK_eq_none _ _ (fun k h1 h2 => ?_)
  rw [hL] at h2
  match k, h1, h2 with
  | 1, _, _ => exact closes_cons_ne ' ' _ (by decide)
  | 2, _, _ => exact closes_cons_ne '\x7d' _ (by decide)
  | 3, _, _ => exact closes_cons_ne '\x7d' _ (by decide)
  | m + 4, _, h2 =>
    show closes (rest.drop m) = none
    exact closes_in_line_none rest m hz (by omega)

theorem greedyArgs_no_ws_close (rest : List Char)
    (hz : ')' ∉ rest.takeWhile notNewline) :
    greedyArgs ("f.csv)\x7d\x7d".toList ++ rest) = none := by
  have hL : (("f.csv)\x7d\x7d".toList ++ rest).takeWhile notNewline).length
      = 8 + (rest.takeWhile notNewline).length := by
    rw [takeWhile_append_of_all "f.csv)\x7d\x7d".toList rest (by decide)]
    simp
    omega
  unfold greedyArgs
  refine tryK_eq_none _ _ (fun k h1 h2 => ?_)
  rw [hL] at h2
  match k, h1, h2 with
  | 1, _, _ => exact closes_cons_ne '.' _ (by decide)
  | 2, _, _ => exact closes_cons_ne 'c' _ (by decide)
  | 3, _, _ => exact closes_cons_ne 's' _ (by decide)
  | 4, _, _ => exact closes_cons_ne 'v' _ (by decide)
  | 5, _, _ => rfl
  | 6, _, _ => exact closes_cons_ne '\x7d' _ (by decide)
  | 7, _, _ => exact closes_cons_ne '\x7d' _ (by decide)
  | m + 8, _, h2 =>
    show closes (rest.drop m) = none
    exact closes_in_line_none rest m hz (by omega)

/-- C9 counterexample.  The claim asserts that a tag whose argument list is
empty is never recognized as an occurrence and that such text is left
unchanged in the returned document, for every source text.  The capture of
line 79 is greedy, so when the remainder of the line supplies a later
`) ... \x7d\x7d`, the empty-argument tag is absorbed into a larger
occurrence: in `"\x7b\x7b read_csv() \x7d\x7d x) \x7d\x7d"` the scanner
produces one occurrence whose capture is `") \x7d\x7d x"`, and the per-tag
pass resolves, renders and substitutes it, so the text containing the
empty-argument tag is not left unchanged. -/
theorem C9_counterexample :
    findall "read_csv".toList "\x7b\x7b read_csv() \x7d\x7d x) \x7d\x7d".toList
      = [(([] : List Char), ") \x7d\x7d x".toList)] ∧
    findall "read_csv".toList "\x7b\x7b read_csv() \x7d\x7d x) \x7d\x7d".toList ≠ [] ∧
    processTag "read_csv".toList (fun _ _ _ => .ok "TBL".toList)
        (fun _ => .ok (["f"], [])) "/b" ["."] (fun _ => true)
        "\x7b\x7b read_csv() \x7d\x7d x) \x7d\x7d".toList none none "/w"
      = (.ok ("TBL".toList, some "f", some "./f"), "/w") ∧
    ("TBL".toList : List Char) ≠ "\x7b\x7b read_csv() \x7d\x7d x) \x7d\x7d".toList := by
  decide

/-- C9 amended.  A tag lacking whitespace after the opening braces never
matches at its position, whatever follows it.  A tag with an empty argument
list, or lacking whitespace before the closing braces, never matches at its
position *provided the remainder of its line contains no `)`* — the scanner
requires at least one captured character and whitespace on both sides of the
call, but the greedy capture can otherwise absorb the malformed tag into a
larger occurrence ending at a later `) ... \x7d\x7d` on the same line (see
the counterexample).  A document containing only such malformed tags with no
later closing on their lines is scanned to no occurrences and returned
unchanged by the per-tag pass, for every render function, parser,
configuration, path locals and working directory. -/
theorem C9_amended_malformed_tags_unmatched :
    (∀ rest : List Char,
      matchBody "read_csv".toList ("\x7b\x7bread_csv(f.csv)\x7d\x7d".toList ++ rest) = none) ∧
    (∀ rest : List Char, ')' ∉ rest.takeWhile notNewline →
      matchBody "read_csv".toList ("\x7b\x7b read_csv() \x7d\x7d".toList ++ rest) = none) ∧
    (∀ rest : List Char, ')' ∉ rest.takeWhile notNewline →
      matchBody "read_csv".toList ("\x7b\x7b read_csv(f.csv)\x7d\x7d".toList ++ rest) = none) ∧
    findall "read_csv".toList "\x7b\x7b read_csv() \x7d\x7d".toList = [] ∧
    findall "read_csv".toList "\x7b\x7bread_csv(f.csv)\x7d\x7d".toList = [] ∧
    (∀ (render : RenderFn) (parse : ParseFn) (base : String) (dirs : List String)
        (fs : String → Bool) (inp out : Option String) (cwd : String),
      processTag "read_csv".toList render parse base dirs fs
          "\x7b\x7b read_csv() \x7d\x7d and \x7b\x7bread_csv(f.csv)\x7d\x7d".toList
          inp out cwd
        = (.ok ("\x7b\x7b read_csv() \x7d\x7d and \x7b\x7bread_csv(f.csv)\x7d\x7d".toList,
            inp, out), cwd)) := by
  refine ⟨fun rest => rfl, fun rest hz => ?_, fun rest hz => ?_, by decide, by decide, ?_⟩
  · have hga := greedyArgs_empty_close rest hz
    show (match greedyArgs ([')', ' ', '\x7d', '\x7d'] ++ rest) with
      | some kc => some (2 + 1 + (8 : Nat) + 1 + kc.1 + kc.2,
          ([')', ' ', '\x7d', '\x7d'] ++ rest).take kc.1)
      | none => none) = none
    rw [hga]
  · have hga := greedyArgs_no_ws_close rest hz
    show (match greedyArgs ("f.csv)\x7d\x7d".toList ++ rest) with
      | some kc => some (2 + 1 + (8 : Nat) + 1 + kc.1 + kc.2,
          ("f.csv)\x7d\x7d".toList ++ rest).take kc.1)
      | none => none) = none
    rw [hga]
  · intro render parse base dirs fs inp out cwd
    unfold processTag
    rw [show findall "read_csv".toList
        "\x7b\x7b read_csv() \x7d\x7d and \x7b\x7bread_csv(f.csv)\x7d\x7d".toList = []
      from by decide]
    rfl

/-- Witness for the amended C9 at concrete inputs (the universally
quantified conjuncts instantiated and their hypotheses discharged). -/
theorem C9_amended_malformed_tags_unmatched_witness :
    matchBody "read_csv".toList ("\x7b\x7bread_csv(f.csv)\x7d\x7d".toList ++ "X".toList) = none ∧
    matchBody "read_csv".toList ("\x7b\x7b read_csv() \x7d\x7d".toList ++ " tail".toList) = none ∧
    matchBody "read_csv".toList ("\x7b\x7b read_csv(f.csv)\x7d\x7d".toList ++ " tail".toList) = none ∧
    processTag "read_csv".toList (fun _ _ _ => .error (.renderError "no"))
        (fun _ => .ok ([], [])) "/b" ["."] (fun _ => true)
        "\x7b\x7b read_csv() \x7d\x7d and \x7b\x7bread_csv(f.csv)\x7d\x7d".toList
        none none "/w"
      = (.ok ("\x7b\x7b read_csv() \x7d\x7d and \x7b\x7bread_csv(f.csv)\x7d\x7d".toList,
          none, none), "/w") :=
  ⟨C9_amended_malformed_tags_unmatched.1 "X".toList,
   C9_amended_malformed_tags_unmatched.2.1 " tail".toList (by decide),
   C9_amended_malformed_tags_unmatched.2.2.1 " tail".toList (by decide),
   C9_amended_malformed_tags_unmatched.2.2.2.2.2 (fun _ _ _ => .error (.renderError "no"))
     (fun _ => .ok ([], [])) "/b" ["."] (fun _ => true) none none "/w"⟩

theorem findall_cons2 (name s : List Char) (p l : Nat) (g1 g2 : List Char)
    (hf : findLeftmost name s = some (p, l, g1, g2)) :
    findall name s = (g1, g2) :: findall name (s.drop (p + l)) :=
  findall_cons name s (p, l, g1, g2) hf

theorem subOnce_verbatim2 (name f s : List Char) (p l : Nat) (g1 g2 : List Char)
    (hnb : '\\' ∉ f) (hf : findLeftmost name s = some (p, l, g1, g2)) :
    subOnce name f s = .ok (s.take p ++ f ++ s.drop (p + l)) :=
  subOnce_verbatim name f s (p, l, g1, g2) hnb hf

/-- C3 amended.  The substitutor replaces the leftmost match of the *current*
text, so after the first replacement the second application sees the mutated
document; when the first fragment cannot combine with the surrounding text
into a new match — the occurrences sit on different lines, the text outside
them holds no opening brace and no closing parenthesis on the occurrences'
lines, no extra spaces directly precede the tags, and the fragments hold no
opening brace and no backslash — the two occurrences are replaced
independently, the first discovered occurrence by the first fragment and the
second by the second.  (Without these conditions the first replacement can
form a new earlier match that steals the second substitution — see the
counterexample.) -/
theorem C3_amended_substitution_order (name args s1 s2 s3 f1 f2 : List Char)
    (hn1 : name ≠ []) (hn2 : ∀ c ∈ name, pyWs c = false)
    (ha1 : args ≠ []) (ha2 : '\n' ∉ args)
    (hs1b : '\x7b' ∉ s1) (hs1l : s1.getLast? ≠ some ' ')
    (hs2b : '\x7b' ∉ s2) (hs2l : s2.getLast? ≠ some ' ') (hs2n : '\n' ∈ s2)
    (hs2line : ')' ∉ s2.takeWhile notNewline)
    (hs3b : '\x7b' ∉ s3) (hs3line : ')' ∉ s3.takeWhile notNewline)
    (hf1b : '\x7b' ∉ f1) (hf1nb : '\\' ∉ f1) (hf2nb : '\\' ∉ f2)
    (_hne : f1 ≠ f2) :
    findall name (s1 ++ mkOcc name args ++ s2 ++ mkOcc name args ++ s3)
      = [(([] : List Char), args), (([] : List Char), args)] ∧
    (subOnce name f1 (s1 ++ mkOcc name args ++ s2 ++ mkOcc name args ++ s3)).bind
        (fun t1 => subOnce name f2 t1)
      = .ok (s1 ++ f1 ++ s2 ++ f2 ++ s3) := by
  have hs2ne : s2 ≠ [] := by
    intro he
    rw [he] at hs2n
    simp at hs2n
  have hzA : ')' ∉ (s2 ++ (mkOcc name args ++ s3)).takeWhile notNewline := by
    rw [takeWhile_line_append s2 _ hs2n]
    exact hs2line
  have hocc1 : findLeftmost name (mkOcc name args ++ (s2 ++ (mkOcc name args ++ s3)))
      = some (0, (mkOcc name args).length, [], args) :=
    findLeftmost_at name args _ hn1 hn2 ha1 ha2 hzA
  have hocc2 : findLeftmost name (mkOcc name args ++ s3)
      = some (0, (mkOcc name args).length, [], args) :=
    findLeftmost_at name args s3 hn1 hn2 ha1 ha2 hs3line
  have hfm1 : findLeftmost name (s1 ++ (mkOcc name args ++ (s2 ++ (mkOcc name args ++ s3))))
      = some (s1.length, (mkOcc name args).length, [], args) := by
    rw [findLeftmost_skip name s1 _ hs1b hs1l, hocc1]
    simp
  have hdrop1 : (s1 ++ (mkOcc name args ++ (s2 ++ (mkOcc name args ++ s3)))).drop
      (s1.length + (mkOcc name args).length) = s2 ++ (mkOcc name args ++ s3) := by
    rw [← List.append_assoc,
      show s1.length + (mkOcc name args).length = (s1 ++ mkOcc name args).length from
        (List.length_append _ _).symm]
    exact List.drop_left _ _
  have htake1 : (s1 ++ (mkOcc name args ++ (s2 ++ (mkOcc name args ++ s3)))).take s1.length
      = s1 := List.take_left s1 _
  have hfm2 : findLeftmost name (s2 ++ (mkOcc name args ++ s3))
      = some (s2.length, (mkOcc name args).length, [], args) := by
    rw [findLeftmost_skip name s2 _ hs2b hs2l, hocc2]
    simp
  have hdrop2 : (s2 ++ (mkOcc name args ++ s3)).drop (s2.length + (mkOcc name args).length)
      = s3 := by
    rw [← List.append_assoc,
      show s2.length + (mkOcc name args).length = (s2 ++ mkOcc name args).length from
        (List.length_append _ _).symm]
    exact List.drop_left _ _
  have hfl3 : findLeftmost name s3 = none := findLeftmost_no_brace name s3 hs3b
  constructor
  · have e1 := findall_cons2 name _ s1.length (mkOcc name args).length [] args hfm1
    rw [hdrop1] at e1
    have e2 := findall_cons2 name _ s2.length (mkOcc name args).length [] args hfm2
    rw [hdrop2] at e2
    simp only [List.append_assoc]
    rw [e1, e2, findall_none name s3 hfl3]
  · have st1 := subOnce_verbatim2 name f1 _ s1.length (mkOcc name args).length [] args
      hf1nb hfm1
    rw [htake1, hdrop1] at st1
    simp only [List.append_assoc]
    rw [st1]
    show subOnce name f2 (s1 ++ f1 ++ (s2 ++ (mkOcc name args ++ s3)))
      = .ok (s1 ++ (f1 ++ (s2 ++ (f2 ++ s3))))
    have hu : '\x7b' ∉ s1 ++ (f1 ++ s2) := by
      intro hm
      rcases List.mem_append.mp hm with h | h
      · exact hs1b h
      · rcases List.mem_append.mp h with h | h
        · exact hf1b h
        · exact hs2b h
    have hulast : (s1 ++ (f1 ++ s2)).getLast? ≠ some ' ' := by
      obtain ⟨c, hc⟩ : ∃ c, s2.getLast? = some c := by
        rcases hse : s2 with _ | ⟨x, t⟩
        · exact absurd hse hs2ne
        · exact ⟨_, List.getLast?_eq_getLast _ (by simp)⟩
      rw [List.getLast?_append, List.getLast?_append, hc]
      simp only [Option.or]
      intro he
      exact hs2l (by rw [hc]; exact he)
    have hre : s1 ++ f1 ++ (s2 ++ (mkOcc name args ++ s3))
        = (s1 ++ (f1 ++ s2)) ++ (mkOcc name args ++ s3) := by
      simp [List.append_assoc]
    have hfm3 : findLeftmost name ((s1 ++ (f1 ++ s2)) ++ (mkOcc name args ++ s3))
        = some ((s1 ++ (f1 ++ s2)).length, (mkOcc name args).length, [], args) := by
      rw [findLeftmost_skip name _ _ hu hulast, hocc2]
      simp
    have htake3 : ((s1 ++ (f1 ++ s2)) ++ (mkOcc name args ++ s3)).take
        (s1 ++ (f1 ++ s2)).length = s1 ++ (f1 ++ s2) := List.take_left _ _
    have hdrop3 : ((s1 ++ (f1 ++ s2)) ++ (mkOcc name args ++ s3)).drop
        ((s1 ++ (f1 ++ s2)).length + (mkOcc name args).length) = s3 := by
      rw [← List.append_assoc (s1 ++ (f1 ++ s2)) (mkOcc name args) s3,
        show (s1 ++ (f1 ++ s2)).length + (mkOcc name args).length
            = ((s1 ++ (f1 ++ s2)) ++ mkOcc name args).length from
          (List.length_append _ _).symm]
      exact List.drop_left _ _
    have st2 := subOnce_verbatim2 name f2 _ (s1 ++ (f1 ++ s2)).length
      (mkOcc name args).length [] args hf2nb hfm3
    rw [htake3, hdrop3] at st2
    rw [hre, st2]
    simp [List.append_assoc]

/-- Witness for the amended C3 at a concrete input: two identical occurrences
on separate lines, replaced in discovery order by two distinct fragments. -/
theorem C3_amended_substitution_order_witness :
    findall "read_csv".toList
        ("X".toList ++ mkOcc "read_csv".toList "a".toList ++ "\nY\n".toList
          ++ mkOcc "read_csv".toList "a".toList ++ "Z".toList)
      = [(([] : List Char), "a".toList), (([] : List Char), "a".toList)] ∧
    (subOnce "read_csv".toList "T1".toList
        ("X".toList ++ mkOcc "read_csv".toList "a".toList ++ "\nY\n".toList
          ++ mkOcc "read_csv".toList "a".toList ++ "Z".toList)).bind
        (fun t1 => subOnce "read_csv".toList "T2".toList t1)
      = .ok ("X".toList ++ "T1".toList ++ "\nY\n".toList ++ "T2".toList ++ "Z".toList) :=
  C3_amended_substitution_order "read_csv".toList "a".toList "X".toList "\nY\n".toList
    "Z".toList "T1".toList "T2".toList (by decide) (by decide) (by decide) (by decide)
    (by decide) (by decide) (by decide) (by decide) (by decide) (by decide) (by decide)
    (by decide) (by decide) (by decide) (by decide) (by decide)

/-- C5 amended.  The capture of line 79 is greedy: a line holding two
complete occurrences of the same tag produces a *single* TagOccurrence whose
captured raw argument text spans from the first tag's arguments, across the
first closing and the separator, to the last tag's arguments on the line. -/
theorem C5_amended_greedy_spans_line (name a b sep s1 s3 : List Char)
    (hn1 : name ≠ []) (hn2 : ∀ c ∈ name, pyWs c = false) (hn3 : '\n' ∉ name)
    (ha1 : a ≠ []) (ha2 : '\n' ∉ a) (hb2 : '\n' ∉ b) (hsep : '\n' ∉ sep)
    (hs1b : '\x7b' ∉ s1) (hs1l : s1.getLast? ≠ some ' ')
    (hs3b : '\x7b' ∉ s3) (hs3line : ')' ∉ s3.takeWhile notNewline) :
    findall name (s1 ++ mkOcc name a ++ sep ++ mkOcc name b ++ s3)
      = [(([] : List Char),
          a ++ [')', ' ', '\x7d', '\x7d'] ++ sep ++ ['\x7b', '\x7b', ' ']
            ++ name ++ ['('] ++ b)] := by
  have hkey : s1 ++ mkOcc name a ++ sep ++ mkOcc name b ++ s3
      = s1 ++ (mkOcc name (a ++ [')', ' ', '\x7d', '\x7d'] ++ sep ++ ['\x7b', '\x7b', ' ']
          ++ name ++ ['('] ++ b) ++ s3) := by
    simp [mkOcc, List.append_assoc]
  have hAne : a ++ [')', ' ', '\x7d', '\x7d'] ++ sep ++ ['\x7b', '\x7b', ' ']
      ++ name ++ ['('] ++ b ≠ [] := by
    intro he
    have := congrArg List.length he
    simp [List.length_append] at this
  have hAnl : '\n' ∉ a ++ [')', ' ', '\x7d', '\x7d'] ++ sep ++ ['\x7b', '\x7b', ' ']
      ++ name ++ ['('] ++ b := by
    intro hm
    rcases List.mem_append.mp hm with h1 | h1
    · rcases List.mem_append.mp h1 with h2 | h2
      · rcases List.mem_append.mp h2 with h3 | h3
        · rcases List.mem_append.mp h3 with h4 | h4
          · rcases List.mem_append.mp h4 with h5 | h5
            · rcases List.mem_append.mp h5 with h6 | h6
              · exact ha2 h6
              · exact absurd h6 (by decide)
            · exact hsep h5
          · exact absurd h4 (by decide)
        · exact hn3 h3
      · exact absurd h2 (by decide)
    · exact hb2 h1
  have hfm : findLeftmost name (s1 ++ (mkOcc name (a ++ [')', ' ', '\x7d', '\x7d'] ++ sep
      ++ ['\x7b', '\x7b', ' '] ++ name ++ ['('] ++ b) ++ s3))
      = some (s1.length, (mkOcc name (a ++ [')', ' ', '\x7d', '\x7d'] ++ sep
          ++ ['\x7b', '\x7b', ' '] ++ name ++ ['('] ++ b)).length, [],
        a ++ [')', ' ', '\x7d', '\x7d'] ++ sep ++ ['\x7b', '\x7b', ' '] ++ name ++ ['('] ++ b) := by
    rw [findLeftmost_skip name s1 _ hs1b hs1l,
      findLeftmost_at name _ s3 hn1 hn2 hAne hAnl hs3line]
    simp
  rw [hkey]
  rw [findall_cons2 name _ s1.length _ [] _ hfm]
  have hdrop : (s1 ++ (mkOcc name (a ++ [')', ' ', '\x7d', '\x7d'] ++ sep
      ++ ['\x7b', '\x7b', ' '] ++ name ++ ['('] ++ b) ++ s3)).drop
      (s1.length + (mkOcc name (a ++ [')', ' ', '\x7d', '\x7d'] ++ sep
        ++ ['\x7b', '\x7b', ' '] ++ name ++ ['('] ++ b)).length) = s3 := by
    rw [← List.append_assoc,
      show s1.length + (mkOcc name (a ++ [')', ' ', '\x7d', '\x7d'] ++ sep
          ++ ['\x7b', '\x7b', ' '] ++ name ++ ['('] ++ b)).length
        = (s1 ++ mkOcc name (a ++ [')', ' ', '\x7d', '\x7d'] ++ sep
          ++ ['\x7b', '\x7b', ' '] ++ name ++ ['('] ++ b)).length from
        (List.length_append _ _).symm]
    exact List.drop_left _ _
  rw [hdrop, findall_none name s3 (findLeftmost_no_brace name s3 hs3b)]

/-- Witness for the amended C5 at a concrete input: the single-line text
with two complete `read_csv` tags produces one occurrence with the greedy
capture. -/
theorem C5_amended_greedy_spans_line_witness :
    findall "read_csv".toList
        (([] : List Char) ++ mkOcc "read_csv".toList "a.csv".toList ++ " ".toList
          ++ mkOcc "read_csv".toList "b.csv".toList ++ ([] : List Char))
      = [(([] : List Char),
          "a.csv".toList ++ [')', ' ', '\x7d', '\x7d'] ++ " ".toList ++ ['\x7b', '\x7b', ' ']
            ++ "read_csv".toList ++ ['('] ++ "b.csv".toList)] :=
  C5_amended_greedy_spans_line "read_csv".toList "a.csv".toList "b.csv".toList " ".toList
    [] [] (by decide) (by decide) (by decide) (by decide) (by decide) (by decide)
    (by decide) (by decide) (by decide) (by decide) (by decide)

/-- Splitting the occurrence loop: the matches after a prefix are processed
from the state (document, path locals, directory) the prefix produced, and
an error in the prefix aborts. -/
theorem goMatches_append (name : List Char) (render : RenderFn) (parse : ParseFn)
    (base : String) (dirs : List String) (fs : String → Bool)
    (ms1 ms2 : List (List Char × List Char)) (md : List Char)
    (inp out : Option String) (cwd : String) :
    goMatches name render parse base dirs fs (ms1 ++ ms2) md inp out cwd
      = match goMatches name render parse base dirs fs ms1 md inp out cwd with
        | (.ok (md1, i1, o1), c1) => goMatches name render parse base dirs fs ms2 md1 i1 o1 c1
        | (.error e, c1) => (.error e, c1) := by
  induction ms1 generalizing md inp out cwd with
  | nil => simp [goMatches]
  | cons m rest ih =>
    simp only [List.cons_append, goMatches]
    rcases h : stepMatch name render parse base dirs fs m md inp out cwd with ⟨r, c⟩
    rcases r with e | v
    · simp
    · rcases v with ⟨md2, i2, o2⟩
      simp [ih]

/-- C10 counterexample.  The claim asserts that *whenever* an occurrence's
parsed arguments have no positional value and no truthy `filepath_or_buffer`,
the unbound-variable failure occurs.  But `input_file_path` and
`output_file_path` are function-scope locals that persist across occurrences
of one `on_page_markdown` call: after a successful path-bearing occurrence,
a later path-less occurrence re-reads the stale `output_file_path` at line
103; the stale path still exists, so the loop breaks, render is invoked
(with no path argument at all), and the document is updated — no
unbound-variable error.  Here: occurrence 1 (`a`) assigns the locals,
occurrence 2 (`b`) parses to no positional and no keyword arguments yet is
rendered, producing `"T\nT"`. -/
theorem C10_counterexample :
    findall "read_csv".toList
        "\x7b\x7b read_csv(a) \x7d\x7d\n\x7b\x7b read_csv(b) \x7d\x7d".toList
      = [(([] : List Char), ['a']), (([] : List Char), ['b'])] ∧
    ((fun g2 => if g2 = ['a'] then .ok (["a"], []) else .ok ([], [])) : ParseFn) ['b']
      = .ok (([] : List String), ([] : List (String × String))) ∧
    processTag "read_csv".toList (fun _ _ _ => .ok "T".toList)
        (fun g2 => if g2 = ['a'] then .ok (["a"], []) else .ok ([], []))
        "/b" ["."] (fun _ => true)
        "\x7b\x7b read_csv(a) \x7d\x7d\n\x7b\x7b read_csv(b) \x7d\x7d".toList
        none none "/w"
      = (.ok ("T\nT".toList, some "a", some "./a"), "/w") ∧
    ("T\nT".toList : List Char)
      ≠ "\x7b\x7b read_csv(a) \x7d\x7d\n\x7b\x7b read_csv(b) \x7d\x7d".toList := by
  decide

/-- C10 amended.  The unbound-variable failure holds only while the
function-scope locals `input_file_path`/`output_file_path` are still
unassigned (in particular for the first occurrence processed in the call):
then an occurrence whose parsed arguments have no positional value and no
truthy `filepath_or_buffer` keyword (missing key or empty-string value)
makes line 103 read the unassigned `output_file_path`, raising an
unbound-variable error in the first loop iteration — no `FileNotFoundError`,
no render call (the result is the same for every render function), and no
updated document (first two conjuncts).  Once `output_file_path` holds a
stale value from an earlier occurrence whose joined path exists, the same
path-less arguments pass the existence check unchanged instead of raising
(third conjunct), which is what falsifies the unconditional claim. -/
theorem C10_amended_unassigned_locals_unbound (base d : String) (rest : List String)
    (fs : String → Bool) (kw : List (String × String))
    (hkw : kw.lookup "filepath_or_buffer" = none ∨ kw.lookup "filepath_or_buffer" = some "") :
    resolveLoop base (d :: rest) fs [] kw none none
      = .error (.nameError "output_file_path") ∧
    (∀ (name : List Char) (render : RenderFn) (parse : ParseFn)
      (m : List Char × List Char) (md : List Char) (cwd : String),
      parse m.2 = .ok ([], kw) →
      stepMatch name render parse base (d :: rest) fs m md none none cwd
        = (.error (.nameError "output_file_path"), cwd)) ∧
    (∀ (inp0 : Option String) (o : String), fs (osPathJoin base o) = true →
      resolveLoop base (d :: rest) fs [] kw inp0 (some o)
        = .ok ([], kw, inp0, some o)) := by
  have h1 : resolveLoop base (d :: rest) fs [] kw none none
      = .error (.nameError "output_file_path") := by
    unfold resolveLoop resolveGo
    rcases hkw with h | h <;> simp [truthyGet, h]
  refine ⟨h1, ?_, ?_⟩
  · intro name render parse m md cwd hparse
    unfold stepMatch cdScope
    simp only [hparse, h1]
  · intro inp0 o ho
    unfold resolveLoop resolveGo
    rcases hkw with h | h <;> simp [truthyGet, h, ho]

/-- Witness for the amended C10 at a concrete input. -/
theorem C10_amended_unassigned_locals_unbound_witness :
    resolveLoop "/b" ["."] (fun _ => true) [] [("filepath_or_buffer", "")] none none
      = .error (.nameError "output_file_path") ∧
    stepMatch "read_csv".toList (fun _ _ _ => .ok [])
        (fun _ => .ok ([], [("filepath_or_buffer", "")]))
        "/b" ["."] (fun _ => true) ("  ".toList, "x".toList) "doc".toList none none "/cwd"
      = (.error (.nameError "output_file_path"), "/cwd") ∧
    resolveLoop "/b" ["."] (fun _ => true) [] [("filepath_or_buffer", "")] none (some "x")
      = .ok ([], [("filepath_or_buffer", "")], none, some "x") := by
  have h := C10_amended_unassigned_locals_unbound "/b" "." [] (fun _ => true)
    [("filepath_or_buffer", "")] (Or.inr (by decide))
  exact ⟨h.1, h.2.1 "read_csv".toList (fun _ _ _ => .ok [])
      (fun _ => .ok ([], [("filepath_or_buffer", "")]))
      ("  ".toList, "x".toList) "doc".toList "/cwd" rfl,
    h.2.2 none "x" (by decide)⟩

/-- C8.  The per-occurrence step changes the working directory only inside
the scoped block around the existence check and the render call: the
directory after the step equals the directory before it on every exit path
(parse failure, unbound local, `FileNotFoundError`, render failure, or
success), and the document result does not depend on the entry directory at
all — the block's body always runs with the resolution base directory as its
ambient directory.  (The context manager `cd` itself is not under `src/`
and is modelled from the spec as `cdScope`.) -/
theorem C8_working_directory_scoped (name : List Char) (render : RenderFn)
    (parse : ParseFn) (base : String) (dirs : List String) (fs : String → Bool)
    (m : List Char × List Char) (md : List Char) (inp out : Option String)
    (cwd cwd2 : String) :
    (stepMatch name render parse base dirs fs m md inp out cwd).2 = cwd ∧
    (stepMatch name render parse base dirs fs m md inp out cwd).1
      = (stepMatch name render parse base dirs fs m md inp out cwd2).1 := by
  unfold stepMatch cdScope
  rcases h : parse m.2 with e | ak
  · simp
  · rcases ak with ⟨args, kw⟩
    rcases hr : resolveLoop base dirs fs args kw inp out with e | ak2
    · simp [hr]
    · rcases ak2 with ⟨args2, kw2, i2, o2⟩
      rcases hren : render base args2 kw2 with e | t <;> simp [hr, hren]

/-- C7.  If the occurrences before `m` processed successfully (leaving
document `md1`, locals `inp1`/`out1` and directory `c1`) and the render
function fails on `m` with error `e`, the whole per-tag pass returns exactly
`e` (propagated unchanged, regardless of the remaining occurrences), and no
document text — partial or otherwise — is returned. -/
theorem C7_render_error_propagates (name : List Char) (render : RenderFn)
    (parse : ParseFn) (base : String) (dirs : List String) (fs : String → Bool)
    (md md1 : List Char) (inp out inp1 out1 : Option String) (cwd c1 : String)
    (pre post : List (List Char × List Char)) (m : List Char × List Char)
    (args2 : List String) (kw2 : List (String × String)) (inp2 out2 : Option String)
    (args : List String) (kw : List (String × String)) (e : PyErr)
    (hfind : findall name md = pre ++ m :: post)
    (hpre : goMatches name render parse base dirs fs pre md inp out cwd
      = (.ok (md1, inp1, out1), c1))
    (hparse : parse m.2 = .ok (args, kw))
    (hres : resolveLoop base dirs fs args kw inp1 out1 = .ok (args2, kw2, inp2, out2))
    (hrender : render base args2 kw2 = .error e) :
    processTag name render parse base dirs fs md inp out cwd = (.error e, c1) ∧
    ∀ (r : List Char × Option String × Option String) (c2 : String),
      processTag name render parse base dirs fs md inp out cwd ≠ (.ok r, c2) := by
  have hstep : stepMatch name render parse base dirs fs m md1 inp1 out1 c1
      = (.error e, c1) := by
    unfold stepMatch cdScope
    simp only [hparse, hres, hrender]
  have hmain : processTag name render parse base dirs fs md inp out cwd = (.error e, c1) := by
    unfold processTag
    rw [hfind, goMatches_append, hpre]
    simp only [goMatches, hstep]
  refine ⟨hmain, ?_⟩
  intro r c2
  rw [hmain]
  simp

/-- Witness for C7 at a concrete input: one occurrence, a render function
that fails. -/
theorem C7_render_error_propagates_witness :
    processTag "read_csv".toList (fun _ _ _ => .error (.renderError "boom"))
        (fun _ => .ok (["a"], [])) "/b" ["."] (fun _ => true)
        "\x7b\x7b read_csv(a) \x7d\x7d".toList none none "/cwd"
      = (.error (.renderError "boom"), "/cwd") :=
  (C7_render_error_propagates "read_csv".toList
    (fun _ _ _ => .error (.renderError "boom")) (fun _ => .ok (["a"], []))
    "/b" ["."] (fun _ => true)
    "\x7b\x7b read_csv(a) \x7d\x7d".toList "\x7b\x7b read_csv(a) \x7d\x7d".toList
    none none none none "/cwd" "/cwd" [] [] (([] : List Char), ['a'])
    ["./a"] [] (some "a") (some "./a") ["a"] []
    (.renderError "boom") (by decide) rfl rfl (by decide) rfl).1

/-- C1.  The claim asserts that when the referenced file exists under the
i-th search directory (joined with the candidate path, resolved relative to
the base directory) and under no earlier one, resolution returns the path
under the i-th directory and does not raise — in particular, with search
directories `["./data", "./page_dir"]` and the file present only under
`./page_dir`, the render function receives the path under `./page_dir`.
The code does not do this: line 96 overwrites `pd_args[0]` with the joined
path, so the second iteration joins `./page_dir` with `./data/data.csv`
instead of with `data.csv`, tests a path that does not exist, and the loop
falls through to the `FileNotFoundError` of lines 108-110.  This theorem
evaluates the embedded loop at that failing input: the file exists under
the second directory and not under the first (first two conjuncts), yet
resolution raises instead of returning. -/
theorem C1_second_directory_hit_raises :
    ((fun p => decide (normalizePath p = "/base/page_dir/data.csv"))
        (osPathJoin "/base" (osPathJoin "./data" "data.csv")) = false) ∧
    ((fun p => decide (normalizePath p = "/base/page_dir/data.csv"))
        (osPathJoin "/base" (osPathJoin "./page_dir" "data.csv")) = true) ∧
    resolveLoop "/base" ["./data", "./page_dir"]
        (fun p => decide (normalizePath p = "/base/page_dir/data.csv")) ["data.csv"] []
        none none
      = .error (.fileNotFound "./data/data.csv" ["./data", "./page_dir"]) := by
  decide

/-- C2.  The claim asserts that when the file exists under none of the
search directories the raised `FileNotFoundError` names the original
candidate relative path (`missing.csv`, not a joined variant).  Because of
the same in-place mutation of `pd_args[0]`, at raise time `input_file_path`
holds the candidate already joined with the first directory, so the message
names `./data/missing.csv`.  (The error type and the directory list, in
order, are as claimed.) -/
theorem C2_message_names_joined_candidate :
    resolveLoop "/base" ["./data", "./page_dir"] (fun _ => false) ["missing.csv"] []
        none none
      = .error (.fileNotFound "./data/missing.csv" ["./data", "./page_dir"]) ∧
    "./data/missing.csv" ≠ "missing.csv" := by
  decide

/-- C4 counterexample.  The claim asserts that *every* line of the fragment,
including empty or whitespace-only lines, is prefixed with the normalized
whitespace.  With 6 captured spaces (normalized to 4) and the fragment
`"a\n\nb"`, the code leaves the middle empty line unprefixed
(`textwrap.indent`'s default predicate skips lines without non-whitespace
characters), so the output is `"    a\n\n    b"` and not the claimed
`"    a\n    \n    b"`. -/
theorem C4_counterexample :
    applyIndent (List.replicate 6 ' ') "a\n\nb".toList = "    a\n\n    b".toList ∧
    applyIndent (List.replicate 6 ' ') "a\n\nb".toList ≠ "    a\n    \n    b".toList := by
  decide

/-- C5 counterexample.  The claim asserts that a line holding two complete
occurrences of the same tag yields two TagOccurrences, each capturing only
its own arguments (a non-greedy capture).  The pattern of line 79 uses the
greedy `(.+)`, so the scanner produces a single occurrence whose capture
spans from the first tag's arguments to the last closing on the line. -/
theorem C5_counterexample :
    findall "read_csv".toList
        "\x7b\x7b read_csv(a.csv) \x7d\x7d \x7b\x7b read_csv(b.csv) \x7d\x7d".toList
      = [(([] : List Char), "a.csv) \x7d\x7d \x7b\x7b read_csv(b.csv".toList)] ∧
    (findall "read_csv".toList
        "\x7b\x7b read_csv(a.csv) \x7d\x7d \x7b\x7b read_csv(b.csv) \x7d\x7d".toList).length
      ≠ 2 := by
  decide

/-- C6 counterexample.  The claim asserts that substitution inserts exactly
the fragment's characters with no reinterpretation.  Line 128 passes the
rendered table as the replacement *template* of `re.sub`, so backslash
sequences are expanded: the fragment `"\2"` is replaced by the second
capture group (`a.csv`) instead of being inserted verbatim. -/
theorem C6_counterexample :
    subOnce "read_csv".toList "\\2".toList "  \x7b\x7b read_csv(a.csv) \x7d\x7d".toList
      = .ok "a.csv".toList ∧
    ("a.csv".toList : List Char) ≠ "\\2".toList := by
  decide

/-- C3 counterexample.  The claim asserts that for a text with exactly two
byte-identical occurrences and two distinct fragments that do not themselves
match the pattern, substituting once per occurrence in discovery order puts
the first fragment at the first occurrence and the second fragment at the
second.  Line 128 re-scans the *mutated* text for the leftmost match, so a
first fragment that combines with the following context into a new match is
replaced by the second substitution instead of the second occurrence: here
the text has exactly two byte-identical occurrences (first conjunct),
neither fragment matches the pattern and they are distinct (next conjuncts),
yet after both substitutions the second occurrence is still present and the
second fragment landed over the first fragment and the following line
(`"W\nQ\x7b\x7b read_csv(a) \x7d\x7d"` instead of the claimed
`"\x7b\x7b read_csv(z)\n \x7d\x7d\nQW"`). -/
theorem C3_counterexample :
    findall "read_csv".toList
        "\x7b\x7b read_csv(a) \x7d\x7d\n \x7d\x7d\nQ\x7b\x7b read_csv(a) \x7d\x7d".toList
      = [(([] : List Char), ['a']), (([] : List Char), ['a'])] ∧
    findall "read_csv".toList "\x7b\x7b read_csv(z)".toList = [] ∧
    findall "read_csv".toList "W".toList = [] ∧
    ("\x7b\x7b read_csv(z)".toList : List Char) ≠ "W".toList ∧
    subOnce "read_csv".toList "\x7b\x7b read_csv(z)".toList
        "\x7b\x7b read_csv(a) \x7d\x7d\n \x7d\x7d\nQ\x7b\x7b read_csv(a) \x7d\x7d".toList
      = .ok "\x7b\x7b read_csv(z)\n \x7d\x7d\nQ\x7b\x7b read_csv(a) \x7d\x7d".toList ∧
    subOnce "read_csv".toList "W".toList
        "\x7b\x7b read_csv(z)\n \x7d\x7d\nQ\x7b\x7b read_csv(a) \x7d\x7d".toList
      = .ok "W\nQ\x7b\x7b read_csv(a) \x7d\x7d".toList ∧
    ("W\nQ\x7b\x7b read_csv(a) \x7d\x7d".toList : List Char)
      ≠ "\x7b\x7b read_csv(z)\n \x7d\x7d\nQW".toList := by
  decide

end TableReader
